import Mathlib

/-!
Shallow embedding of the two renderers of `meain/tree-sitter-debugger`
(`src/main.go`): the tree serializer `printTree` and the query-match
reporter `executeQuery`.  Source bytes are modelled as `List Nat`
(Go strings and byte slices are byte sequences; `len` and slicing in Go
count bytes).  Rendered output is modelled as a list of lines, each line a
list of bytes; `fmt.Println`/`fmt.Printf("...\n")` each contribute one
line, and `fmt.Println()` with no argument contributes one empty line.
-/

namespace TreeDebug

/-- Byte list of an ASCII string literal (codepoint = byte for ASCII). -/
def ascii (s : String) : List Nat := s.data.map Char.toNat

/-- Decimal digits of a natural number, as ASCII bytes (models `%d`). -/
def natToBytes (n : Nat) : List Nat := (Nat.toDigits 10 n).map Char.toNat

/-- Go slice `source[a:b]`: the bytes at indices `a .. b-1`. -/
def slice (source : List Nat) (a b : Nat) : List Nat :=
  (source.drop a).take (b - a)

/-- `strings.ReplaceAll(s, "\n", "\\n")`: each newline byte (10) becomes
the two bytes `\` `n` (92, 110); the pattern is a single byte, so
replacement is pointwise. -/
def escNL (s : List Nat) : List Nat :=
  s.flatMap (fun b => if b = 10 then [92, 110] else [b])

/-- `strings.ReplaceAll(s, "\t", "\\t")`: each tab byte (9) becomes
the two bytes `\` `t` (92, 116). -/
def escTab (s : List Nat) : List Nat :=
  s.flatMap (fun b => if b = 9 then [92, 116] else [b])

/-- Single-pass description of the two replacement passes (lemma
`escTab_escNL` shows the composition equals this). -/
def escByte (b : Nat) : List Nat :=
  if b = 10 then [92, 110] else if b = 9 then [92, 116] else [b]

/-- The displayed content of a named leaf in `printTree`: escape newlines
and tabs, then `if len(displayContent) > 50 { displayContent[:47] + "..." }`.
Go `len` and `[:47]` count raw bytes. -/
def displayLeaf (content : List Nat) : List Nat :=
  let e := escTab (escNL content)
  if e.length > 50 then e.take 47 ++ ascii ("...") else e

/-- A parse-tree node as the renderers read it: kind name (bytes),
named flag, byte range, start/end (row, column), children in stored
order.  Owned by the external parser; the core only reads it. -/
inductive Node where
  | mk (kind : List Nat) (isNamed : Bool)
       (startByte endByte startRow startCol endRow endCol : Nat)
       (children : List Node)

def Node.kind : Node → List Nat
  | .mk k _ _ _ _ _ _ _ _ => k

def Node.isNamed : Node → Bool
  | .mk _ n _ _ _ _ _ _ _ => n

def Node.startByte : Node → Nat
  | .mk _ _ sb _ _ _ _ _ _ => sb

def Node.endByte : Node → Nat
  | .mk _ _ _ eb _ _ _ _ _ => eb

def Node.startRow : Node → Nat
  | .mk _ _ _ _ r _ _ _ _ => r

def Node.startCol : Node → Nat
  | .mk _ _ _ _ _ c _ _ _ => c

def Node.endRow : Node → Nat
  | .mk _ _ _ _ _ _ r _ _ => r

def Node.endCol : Node → Nat
  | .mk _ _ _ _ _ _ _ c _ => c

def Node.children : Node → List Node
  | .mk _ _ _ _ _ _ _ _ c => c

mutual

/-- `printTree(node, source, depth)` from `src/main.go`, as the list of
lines it prints.  Named leaf: `indent(kind "escaped-truncated")`.
Named non-leaf: opening line `indent(kind`, the children at `depth+1`,
closing line `indent)`.  Anonymous node: `indent"escaped"` and then its
children (anonymous nodes in practice have none). -/
def printTree (source : List Nat) : Node → Nat → List (List Nat)
  | .mk kind named sb eb _ _ _ _ children, depth =>
    let ind := List.replicate (2 * depth) 32
    (if named then
      if children.isEmpty then
        [ind ++ [40] ++ kind ++ [32, 34]
           ++ displayLeaf (slice source sb eb) ++ [34, 41]]
      else
        [ind ++ [40] ++ kind]
    else
      [ind ++ [34] ++ escTab (escNL (slice source sb eb)) ++ [34]])
    ++ printTreeList source children (depth + 1)
    ++ (if named && !children.isEmpty then [ind ++ [41]] else [])

/-- The `for i := uint(0); i < node.ChildCount(); i++` loop of
`printTree`: children rendered in stored order. -/
def printTreeList (source : List Nat) : List Node → Nat → List (List Nat)
  | [], _ => []
  | n :: rest, depth => printTree source n depth ++ printTreeList source rest depth

end

mutual

/-- The quoted contents `printTree` emits, in emission order: a named
leaf contributes its escaped-and-truncated display, an anonymous node its
escaped display (before its children), a named non-leaf nothing of its
own.  Each entry records whether it came from a named leaf (subject to
truncation) and its byte range. -/
def leafEntries : Node → List (Bool × Nat × Nat)
  | .mk _ named sb eb _ _ _ _ children =>
    (if named then
      if children.isEmpty then [(true, sb, eb)] else []
    else [(false, sb, eb)])
    ++ leafEntriesList children

def leafEntriesList : List Node → List (Bool × Nat × Nat)
  | [] => []
  | n :: rest => leafEntries n ++ leafEntriesList rest

end

/-- The quoted content strings of `printTree`, in emission order. -/
def renderedContents (source : List Nat) (node : Node) : List (List Nat) :=
  (leafEntries node).map (fun e =>
    if e.1 then displayLeaf (slice source e.2.1 e.2.2)
    else escTab (escNL (slice source e.2.1 e.2.2)))

/-- Reversal of the display escaping: the byte pair `\` `n` becomes a
newline and `\` `t` a tab, scanning left to right. -/
def unescape : List Nat → List Nat
  | [] => []
  | [b] => [b]
  | a :: b :: rest =>
    if a = 92 ∧ b = 110 then 10 :: unescape rest
    else if a = 92 ∧ b = 116 then 9 :: unescape rest
    else a :: unescape (b :: rest)

/-- Does the byte list contain a literal `\` `n` or `\` `t` pair?  Such
content makes the display escaping ambiguous. -/
def hasLiteralEsc : List Nat → Bool
  | [] => false
  | [_] => false
  | a :: b :: rest =>
    (a = 92 && (b = 110 || b = 116)) || hasLiteralEsc (b :: rest)

/-- `chainFrom a rs n`: the ranges `rs` are consecutive, starting at `a`
and ending at `n` (each range begins where the previous ended and is
non-collapsing). -/
def chainFrom : Nat → List (Nat × Nat) → Nat → Bool
  | a, [], n => a = n
  | a, (s, e) :: rest, n => (s = a) && (a ≤ e : Bool) && chainFrom e rest n

/-- Drop one trailing carriage return, as `bufio.ScanLines`'s `dropCR`. -/
def dropCR (l : List Nat) : List Nat :=
  if l.getLast? = some 13 then l.dropLast else l

/-- The tokens yielded by `bufio.Scanner` with its default `ScanLines`
split over the byte list: split on newline bytes, drop the empty segment
after a terminating newline, strip one trailing carriage return from
each line — and stop at the first segment of 65536 bytes or more
(`bufio.MaxScanTokenSize` = 64 KiB): there `Scan` returns false with
`ErrTooLong`, and since the code never checks `scanner.Err()`, the
remaining content is silently dropped.  A segment (carriage return
included) fits exactly when its newline lands inside the 65536-byte
buffer, i.e. when it is shorter than 65536 bytes. -/
def scanLines (s : List Nat) : List (List Nat) :=
  if s.isEmpty then []
  else
    ((if s.getLast? = some 10 then (s.splitOn 10).dropLast else s.splitOn 10).takeWhile
      (fun seg => seg.length < 65536)).map dropCR

/-- The compiled query as the reporter reads it: its capture-name table
(`q.CaptureNames()`).  Compilation itself is external. -/
structure QueryT where
  captureNames : List (List Nat)

/-- A capture from the external query engine: index into the
capture-name table, and the captured node. -/
structure CaptureT where
  index : Nat
  node : Node

/-- A match from the external query engine: its captures in engine
order. -/
structure MatchT where
  captures : List CaptureT

/-- The four header lines the reporter prints for a capture:
`@name`, `start: row+1:col`, `end: row+1:col`, `content:`. -/
def captureHeader (q : QueryT) (cap : CaptureT) : List (List Nat) :=
  [[64] ++ q.captureNames.getD cap.index [],
   ascii ("start: ") ++ natToBytes (cap.node.startRow + 1) ++ [58]
     ++ natToBytes cap.node.startCol,
   ascii ("end: ") ++ natToBytes (cap.node.endRow + 1) ++ [58]
     ++ natToBytes cap.node.endCol,
   ascii ("content:")]

/-- All lines printed for one capture: the header, the content block as
the line scanner yields it, then one blank line (`fmt.Println()`). -/
def captureLines (q : QueryT) (source : List Nat) (cap : CaptureT) : List (List Nat) :=
  captureHeader q cap
  ++ scanLines (slice source cap.node.startByte cap.node.endByte)
  ++ [[]]

/-- All lines printed for one match: its captures in engine order. -/
def matchLines (q : QueryT) (source : List Nat) (m : MatchT) : List (List Nat) :=
  m.captures.flatMap (captureLines q source)

/-- The match loop of `executeQuery`: the first match is printed as is,
every later match is preceded by one blank line (`matchCount > 1`). -/
def matchesOut (q : QueryT) (source : List Nat) : List MatchT → List (List Nat)
  | [] => []
  | m :: rest =>
    matchLines q source m
    ++ rest.flatMap (fun m2 => [] :: matchLines q source m2)

/-- `executeQuery` from `src/main.go`, as (printed lines, returned
error).  The query-compilation outcome and the match stream come from
the external engine.  Compilation failure returns
`invalid query: ...` before any match is iterated, printing nothing;
otherwise the match loop runs and `No matches found` is printed when the
loop counted zero matches, with a `nil` error. -/
def executeQuery (compiled : Except (List Nat) QueryT) (ms : List MatchT)
    (source : List Nat) : List (List Nat) × Option (List Nat) :=
  match compiled with
  | .error e => ([], some (ascii ("invalid query: ") ++ e))
  | .ok q =>
    (matchesOut q source ms
      ++ (if ms.length = 0 then [ascii ("No matches found")] else []),
     none)

/-- Length in bytes of a UTF-8 sequence led by `b` (0 for an invalid
lead byte). -/
def utf8CharLen (b : Nat) : Nat :=
  if b < 128 then 1
  else if b < 194 then 0
  else if b < 224 then 2
  else if b < 240 then 3
  else if b < 245 then 4
  else 0

/-- Is `b` a UTF-8 continuation byte? -/
def utf8Cont (b : Nat) : Bool := 128 ≤ b && b < 192

/-- Decode a byte list into its UTF-8 character byte groups (`none` if
the list is not valid UTF-8); fuel-driven, one byte of fuel per
character suffices. -/
def utf8SplitFuel : Nat → List Nat → Option (List (List Nat))
  | _, [] => some []
  | 0, _ :: _ => none
  | fuel + 1, b :: rest =>
    let n := utf8CharLen b
    if n = 0 then none
    else
      let cont := rest.take (n - 1)
      if cont.length = n - 1 && cont.all utf8Cont then
        match utf8SplitFuel fuel (rest.drop (n - 1)) with
        | some cs => some ((b :: cont) :: cs)
        | none => none
      else none

/-- UTF-8 character groups of a byte list, if it is valid UTF-8. -/
def utf8Split (s : List Nat) : Option (List (List Nat)) :=
  utf8SplitFuel s.length s

/-- Is the byte list valid UTF-8? -/
def utf8Valid (s : List Nat) : Bool := (utf8Split s).isSome

/-- Number of decoded UTF-8 characters of a valid byte list. -/
def utf8Len (s : List Nat) : Nat := ((utf8Split s).getD []).length

/-- Modelled from the spec: leaf display where, after escaping,
truncation counts decoded characters of the escaped text rather than raw
bytes — "if the escaped text exceeds 50 characters, truncate to the
first 47 characters and append `...`", with truncation "at the character
level, not raw bytes".  Compared against the code's `displayLeaf`. -/
def displayLeafCharSpec (content : List Nat) : List Nat :=
  let e := escTab (escNL content)
  match utf8Split e with
  | some cs => if cs.length > 50 then (cs.take 47).flatten ++ ascii ("...") else e
  | none => e

/-! Helper lemmas about the escaping functions. -/

theorem escTab_escNL (s : List Nat) : escTab (escNL s) = s.flatMap escByte := by
  induction s with
  | nil => rfl
  | cons b t ih =>
    by_cases h10 : b = 10
    · subst h10
      simp [escNL, escTab, escByte, List.flatMap_cons] at *
      simpa [escNL, escTab] using ih
    · by_cases h9 : b = 9
      · subst h9
        simp [escNL, escTab, escByte, List.flatMap_cons] at *
        simpa [escNL, escTab] using ih
      · simp [escNL, escTab, escByte, List.flatMap_cons, h10, h9] at *
        simpa [escNL, escTab] using ih

theorem not_mem_esc (s : List Nat) :
    10 ∉ escTab (escNL s) ∧ 9 ∉ escTab (escNL s) := by
  rw [escTab_escNL]
  have key : ∀ b x, x ∈ escByte b → x ≠ 10 ∧ x ≠ 9 := by
    intro b x hx
    unfold escByte at hx
    by_cases h10 : b = 10
    · simp [h10] at hx; omega
    · by_cases h9 : b = 9
      · simp [h10, h9] at hx; omega
      · simp [h10, h9] at hx; omega
  constructor
  · intro hmem
    rcases List.mem_flatMap.mp hmem with ⟨b, _, hb⟩
    exact (key b 10 hb).1 rfl
  · intro hmem
    rcases List.mem_flatMap.mp hmem with ⟨b, _, hb⟩
    exact (key b 9 hb).2 rfl

theorem not_mem_displayLeaf (content : List Nat) :
    10 ∉ displayLeaf content ∧ 9 ∉ displayLeaf content := by
  have h := not_mem_esc content
  unfold displayLeaf
  by_cases hlen : (escTab (escNL content)).length > 50
  · simp only [hlen, if_pos]
    constructor <;>
    · intro hmem
      rcases List.mem_append.mp hmem with h1 | h1
      · first
        | exact h.1 (List.take_subset 47 _ h1)
        | exact h.2 (List.take_subset 47 _ h1)
      · simp [ascii] at h1
  · simp only [hlen, if_neg, not_false_iff]
    exact h

theorem unescape_cons_safe (b : Nat) (l : List Nat)
    (h : b ≠ 92 ∨ ∀ c, l.head? = some c → c ≠ 110 ∧ c ≠ 116) :
    unescape (b :: l) = b :: unescape l := by
  cases l with
  | nil => rfl
  | cons c t =>
    have hcond : ¬(b = 92 ∧ c = 110) ∧ ¬(b = 92 ∧ c = 116) := by
      rcases h with h | h
      · exact ⟨fun hc => h hc.1, fun hc => h hc.1⟩
      · have := h c rfl
        exact ⟨fun hc => this.1 hc.2, fun hc => this.2 hc.2⟩
    simp [unescape, hcond.1, hcond.2]

theorem hasLiteralEsc_tail (b : Nat) (t : List Nat)
    (h : hasLiteralEsc (b :: t) = false) : hasLiteralEsc t = false := by
  cases t with
  | nil => rfl
  | cons c u =>
    have heq : hasLiteralEsc (b :: c :: u)
        = ((b = 92 && (c = 110 || c = 116)) || hasLiteralEsc (c :: u)) := rfl
    rw [heq] at h
    exact (Bool.or_eq_false_iff.mp h).2

theorem unescape_esc (s : List Nat) (h : hasLiteralEsc s = false) :
    unescape (s.flatMap escByte) = s := by
  induction s with
  | nil => rfl
  | cons b t ih =>
    have ht : hasLiteralEsc t = false := hasLiteralEsc_tail b t h
    by_cases h10 : b = 10
    · subst h10
      simp only [List.flatMap_cons, escByte, if_pos rfl]
      show unescape (92 :: 110 :: t.flatMap escByte) = 10 :: t
      rw [show unescape (92 :: 110 :: t.flatMap escByte)
            = 10 :: unescape (t.flatMap escByte) by simp [unescape]]
      rw [ih ht]
    · by_cases h9 : b = 9
      · subst h9
        simp only [List.flatMap_cons, escByte, if_neg (by omega : ¬(9 : Nat) = 10), if_pos rfl]
        show unescape (92 :: 116 :: t.flatMap escByte) = 9 :: t
        rw [show unescape (92 :: 116 :: t.flatMap escByte)
              = 9 :: unescape (t.flatMap escByte) by simp [unescape]]
        rw [ih ht]
      · have hb : escByte b = [b] := by simp [escByte, h10, h9]
        simp only [List.flatMap_cons, hb, List.singleton_append]
        rw [unescape_cons_safe]
        · rw [ih ht]
        · by_cases hb92 : b = 92
          · right
            intro c hc
            cases t with
            | nil => simp at hc
            | cons d u =>
              have hd : (escByte d).length > 0 ∧ (escByte d).headI =
                  (if d = 10 then 92 else if d = 9 then 92 else d) := by
                unfold escByte
                by_cases hd10 : d = 10 <;> by_cases hd9 : d = 9 <;> simp [hd10, hd9]
              have hlit : ¬(d = 110 ∨ d = 116) := by
                intro hd'
                subst hb92
                simp [hasLiteralEsc] at h
                rcases hd' with hd' | hd' <;> subst hd' <;> simp at h
              simp only [List.flatMap_cons] at hc
              by_cases hd10 : d = 10
              · subst hd10; simp [escByte] at hc; omega
              · by_cases hd9 : d = 9
                · subst hd9; simp [escByte] at hc; omega
                · simp [escByte, hd10, hd9] at hc
                  omega
          · left; exact hb92

theorem chain_flatten (source : List Nat) :
    ∀ (rs : List (Nat × Nat)) (a : Nat),
      chainFrom a rs source.length = true →
      (rs.map (fun r => slice source r.1 r.2)).flatten = source.drop a := by
  intro rs
  induction rs with
  | nil =>
    intro a h
    have ha : a = source.length := by
      have : decide (a = source.length) = true := h
      exact of_decide_eq_true this
    simp [ha]
  | cons r rest ih =>
    intro a h
    obtain ⟨s, e⟩ := r
    have h1 : s = a ∧ a ≤ e ∧ chainFrom e rest source.length = true := by
      simpa [chainFrom, Bool.and_eq_true, decide_eq_true_eq, and_assoc] using h
    have hs : s = a := h1.1
    have hae : a ≤ e := h1.2.1
    have hrest := h1.2.2
    have ihr := ih e hrest
    simp only [List.map_cons, List.flatten_cons, ihr, hs]
    have hdrop : source.drop e = (source.drop a).drop (e - a) := by
      rw [List.drop_drop]
      congr 1
      omega
    rw [hdrop, slice, List.take_append_drop]

theorem subset_of_mem_splitOn (x : Nat) :
    ∀ (s : List Nat), ∀ seg ∈ s.splitOn x, ∀ b ∈ seg, b ∈ s := by
  intro s
  induction s with
  | nil =>
    intro seg hseg b hb
    simp [List.splitOn] at hseg
    subst hseg
    simp at hb
  | cons a t ih =>
    intro seg hseg b hb
    simp only [List.splitOn] at hseg ih ⊢
    rw [List.splitOnP_cons] at hseg
    by_cases hax : a = x
    · simp only [hax, beq_self_eq_true, if_pos] at hseg
      rcases List.mem_cons.mp hseg with h | h
      · subst h; simp at hb
      · exact List.mem_cons_of_mem a (ih seg h b hb)
    · simp only [show (a == x) = false by simp [hax], Bool.false_eq_true, if_neg,
        not_false_iff] at hseg
      rcases hT : t.splitOnP (· == x) with _ | ⟨h0, hs⟩
      · exact absurd hT (List.splitOnP_ne_nil _ t)
      · rw [hT] at hseg
        simp only [List.modifyHead] at hseg
        rcases List.mem_cons.mp hseg with h | h
        · subst h
          rcases List.mem_cons.mp hb with h | h
          · exact h ▸ List.mem_cons_self a t
          · exact List.mem_cons_of_mem a
              (ih h0 (hT ▸ List.mem_cons_self h0 hs) b h)
        · exact List.mem_cons_of_mem a
            (ih seg (hT ▸ List.mem_cons_of_mem h0 h) b hb)

theorem dropCR_eq_self (l : List Nat) (h : 13 ∉ l) : dropCR l = l := by
  unfold dropCR
  rcases hL : l.getLast? with _ | b
  · simp
  · have hb : b ∈ l := by
      obtain ⟨hne2, heq⟩ := List.mem_getLast?_eq_getLast (Option.mem_def.mpr hL)
      exact heq ▸ List.getLast_mem hne2
    have hb13 : b ≠ 13 := fun hc => h (hc ▸ hb)
    simp [hb13]

theorem scanLines_eq_splitOn (s : List Nat) (hne : s ≠ []) (h13 : 13 ∉ s)
    (h10 : s.getLast? ≠ some 10)
    (hshort : ∀ seg ∈ s.splitOn 10, seg.length < 65536) :
    scanLines s = s.splitOn 10 := by
  unfold scanLines
  rw [if_neg (by simpa [List.isEmpty_iff] using hne), if_neg h10]
  rw [List.takeWhile_eq_self_iff.mpr (by
    intro seg hseg
    simpa using hshort seg hseg)]
  conv_rhs => rw [← List.map_id (s.splitOn 10)]
  apply List.map_congr_left
  intro seg hseg
  exact dropCR_eq_self seg
    (fun hc => h13 (subset_of_mem_splitOn 10 s seg hseg 13 hc))

theorem intercalate_cons_eq_flatMap {α : Type} (sep : List α) :
    ∀ (x : List α) (xs : List (List α)),
      List.intercalate sep (x :: xs) = x ++ xs.flatMap (fun y => sep ++ y) := by
  intro x xs
  induction xs generalizing x with
  | nil => simp [List.intercalate]
  | cons y ys ih =>
    have h1 : List.intercalate sep (x :: y :: ys)
        = x ++ sep ++ List.intercalate sep (y :: ys) := by
      simp [List.intercalate, List.intersperse_cons_cons]
    rw [h1, ih y, List.flatMap_cons]
    simp [List.append_assoc]

theorem printTreeList_eq_flatMap (source : List Nat) (l : List Node) (d : Nat) :
    printTreeList source l d = l.flatMap (fun c => printTree source c d) := by
  induction l with
  | nil => rfl
  | cons n rest ih => rw [printTreeList, ih, List.flatMap_cons]

theorem leafEntriesList_eq_flatMap (l : List Node) :
    leafEntriesList l = l.flatMap leafEntries := by
  induction l with
  | nil => rfl
  | cons n rest ih => rw [leafEntriesList, ih, List.flatMap_cons]

/-! Concrete fixtures used by the claim theorems below. -/

/-- A leaf content of 51 bytes but 50 UTF-8 characters: 46 times `a`,
the two-byte character `é` (0xC3 0xA9) at byte offsets 46–47, then
`aaa`. -/
def c1Content : List Nat := List.replicate 46 97 ++ [195, 169] ++ List.replicate 3 97

/-- The source buffer `package main`. -/
def srcPM : List Nat := ascii ("package main")

/-- The parse tree of `package main` restricted to the nodes the spec's
scenario names: the anonymous token `package` spans bytes 0–7, the named
leaf `package_identifier` spans bytes 8–12, and the space at byte 7
belongs to no leaf. -/
def gapTree : Node :=
  Node.mk (ascii ("source_file")) true 0 12 0 0 0 12
    [Node.mk (ascii ("package")) false 0 7 0 0 0 7 [],
     Node.mk (ascii ("package_identifier")) true 8 12 0 8 0 12 []]

/-- A two-byte source holding a literal backslash-n sequence. -/
def srcBS : List Nat := [92, 110]

/-- A single named leaf spanning all of `srcBS`. -/
def bsLeaf : Node := Node.mk (ascii ("str")) true 0 2 0 0 0 2 []

/-- The source `a\r\nb`: a CRLF line ending inside a capture's span. -/
def crSrc : List Nat := [97, 13, 10, 98]

/-- A capture spanning all of `crSrc`. -/
def crCap : CaptureT := ⟨0, Node.mk (ascii ("x")) true 0 4 0 0 1 1 []⟩

/-- A one-capture-name query table (`@c`). -/
def crQ : QueryT := ⟨[ascii ("c")]⟩

/-- The query table of `(package_clause (package_identifier) @package)`. -/
def pkgQ : QueryT := ⟨[ascii ("package")]⟩

/-- The single match the engine yields for that query over
`package main`: one capture of the `package_identifier` node at bytes
8–12, start (0,8), end (0,12). -/
def pkgM : MatchT := ⟨[⟨0, Node.mk (ascii ("package_identifier")) true 8 12 0 8 0 12 []⟩]⟩

/-- Round-trip witness source `ab\ncd`. -/
def wSrc : List Nat := [97, 98, 10, 99, 100]

/-- Round-trip witness tree: two named leaves tiling `wSrc`. -/
def wTree : Node :=
  Node.mk (ascii ("root")) true 0 5 0 0 1 2
    [Node.mk (ascii ("a")) true 0 3 0 0 1 0 [],
     Node.mk (ascii ("b")) true 3 5 1 0 1 2 []]

/-- Content-lines witness source `a\nb`. -/
def wSrc7 : List Nat := [97, 10, 98]

/-- A capture spanning all of `wSrc7`. -/
def w7Cap : CaptureT := ⟨0, Node.mk (ascii ("x")) true 0 3 0 0 1 1 []⟩

/-- Source `a"b` for the verbatim-quote scenario. -/
def src10 : List Nat := [97, 34, 98]

/-- A named leaf of kind `kind` spanning all of `src10`. -/
def quoteLeaf : Node := Node.mk (ascii ("kind")) true 0 3 0 0 0 3 []

/-- Indentation witness node: a named node with one named-leaf child. -/
def w9Node : Node :=
  Node.mk (ascii ("root")) true 0 1 0 0 0 1
    [Node.mk (ascii ("x")) true 0 1 0 0 0 1 []]

/-! The claims. -/

/-- C1: the claim says leaf truncation counts decoded characters of the
escaped text, never splitting a multi-byte character.  The code
(`len(displayContent) > 50`, `displayContent[:47]`) counts and slices
raw bytes: on a 51-byte, 50-character escaped text it truncates even
though the character count does not exceed 50, and cuts the two-byte
character `é` in half, leaving the lone lead byte 0xC3 followed by
`...` — an invalid UTF-8 fragment.  The character-level reading
(`displayLeafCharSpec`, the spec's stated intent) leaves this input
untouched. -/
theorem c1_truncation_splits_multibyte :
    utf8Valid c1Content = true ∧
    utf8Len (escTab (escNL c1Content)) = 50 ∧
    displayLeaf c1Content = List.replicate 46 97 ++ [195] ++ ascii ("...") ∧
    utf8Valid (displayLeaf c1Content) = false ∧
    displayLeafCharSpec c1Content = escTab (escNL c1Content) ∧
    displayLeaf c1Content ≠ displayLeafCharSpec c1Content := by
  decide

/-- C2 counterexample: over `package main`, no leaf is truncated, yet
concatenating the unescaped leaf contents yields `packagemain` — the
space at byte 7 lies between sibling leaves and is dropped, so the
original buffer is not reproduced.  A second tree shows a further gap in
the claim: a leaf whose span holds a literal backslash-n also fails the
round trip, because unescaping turns it into a newline. -/
theorem c2_counterexample :
    (leafEntries gapTree).all
        (fun e => decide ((escTab (escNL (slice srcPM e.2.1 e.2.2))).length ≤ 50)) = true ∧
    ((renderedContents srcPM gapTree).map unescape).flatten ≠ srcPM ∧
    (leafEntries bsLeaf).all
        (fun e => decide ((escTab (escNL (slice srcBS e.2.1 e.2.2))).length ≤ 50)) = true ∧
    ((renderedContents srcBS bsLeaf).map unescape).flatten ≠ srcBS := by
  decide

/-- C2 (amended): when no leaf is truncated, the leaves' byte ranges
tile the whole buffer consecutively, and no leaf slice contains a
literal backslash-n or backslash-t pair, concatenating the rendered leaf
contents in traversal order with the escapes reversed reproduces the
original source exactly. -/
theorem c2_round_trip (source : List Nat) (node : Node)
    (hchain : chainFrom 0 ((leafEntries node).map (fun e => (e.2.1, e.2.2)))
        source.length = true)
    (hesc : ∀ e ∈ leafEntries node, hasLiteralEsc (slice source e.2.1 e.2.2) = false)
    (htr : ∀ e ∈ leafEntries node, e.1 = true →
        (escTab (escNL (slice source e.2.1 e.2.2))).length ≤ 50) :
    ((renderedContents source node).map unescape).flatten = source := by
  unfold renderedContents
  rw [List.map_map]
  have hcong : (leafEntries node).map
        (unescape ∘ fun e => if e.1 then displayLeaf (slice source e.2.1 e.2.2)
          else escTab (escNL (slice source e.2.1 e.2.2)))
      = (leafEntries node).map (fun e => slice source e.2.1 e.2.2) := by
    apply List.map_congr_left
    intro e he
    simp only [Function.comp]
    by_cases h1 : e.1 = true
    · have hle := htr e he h1
      simp only [h1, if_pos, displayLeaf]
      rw [if_neg (by omega)]
      rw [escTab_escNL, unescape_esc _ (hesc e he)]
    · have h1f : e.1 = false := by
        cases hB : e.1
        · rfl
        · exact absurd hB h1
      rw [h1f, if_neg (by simp)]
      rw [escTab_escNL, unescape_esc _ (hesc e he)]
  rw [hcong]
  have hch := chain_flatten source
    ((leafEntries node).map (fun e => (e.2.1, e.2.2))) 0 hchain
  rw [List.map_map] at hch
  simpa using hch

/-- C2 witness: the amended round trip holds on a tree of two named
leaves tiling the source `ab\ncd`. -/
theorem c2_witness :
    chainFrom 0 ((leafEntries wTree).map (fun e => (e.2.1, e.2.2))) wSrc.length = true ∧
    ((renderedContents wSrc wTree).map unescape).flatten = wSrc := by
  refine ⟨by decide, c2_round_trip wSrc wTree (by decide) (by decide) (by decide)⟩

/-- C3: the reporter's output is exactly the match blocks joined with a
single blank-line separator between consecutive matches: the first match
is printed with no separator, each later match is preceded by exactly one
blank line (the `matchCount > 1` branch), and nothing is appended after
the last match's block.  (Each capture block itself ends with one blank
line after its content, which the spec's match-report grammar counts as
part of the block, not as the separator.) -/
theorem c3_match_separation (q : QueryT) (source : List Nat) (ms : List MatchT) :
    matchesOut q source ms = List.intercalate [[]] (ms.map (matchLines q source)) := by
  cases ms with
  | nil => rfl
  | cons m rest =>
    rw [List.map_cons, intercalate_cons_eq_flatMap, matchesOut]
    congr 1
    induction rest with
    | nil => rfl
    | cons m2 r2 ih => simp only [List.flatMap_cons, List.map_cons, ih]; rfl

/-- C4: a well-formed query with zero matches prints exactly the single
line `No matches found` and returns no error. -/
theorem c4_no_matches (q : QueryT) (source : List Nat) :
    executeQuery (Except.ok q) [] source = ([ascii ("No matches found")], none) := rfl

/-- C5: a malformed query makes the reporter return the descriptive
`invalid query: ...` error before any match is iterated, with no output
written regardless of what the match stream would have held. -/
theorem c5_invalid_query (e : List Nat) (ms : List MatchT) (source : List Nat) :
    executeQuery (Except.error e) ms source
      = ([], some (ascii ("invalid query: ") ++ e)) := rfl

/-- C6: the escaped display of a named leaf (including truncation) and
of an anonymous node never contains a raw newline or tab byte — every
newline became the pair `\` `n` and every tab the pair `\` `t`. -/
theorem c6_no_raw_controls (content : List Nat) :
    (10 ∉ displayLeaf content ∧ 9 ∉ displayLeaf content) ∧
    10 ∉ escTab (escNL content) ∧ 9 ∉ escTab (escNL content) :=
  ⟨not_mem_displayLeaf content, not_mem_esc content⟩

/-- C7 counterexample: a capture spanning `a\r\nb` prints content lines
`a` and `b` — the carriage return of the CRLF ending is stripped by the
line scanner — so the printed text is not the exact source slice split
only on newlines: rejoining the printed lines with newlines gives
`a\nb`, not `a\r\nb`. -/
theorem c7_counterexample :
    captureLines crQ crSrc crCap =
      [ascii ("@c"), ascii ("start: 1:0"), ascii ("end: 2:1"),
       ascii ("content:"), [97], [98], []] ∧
    slice crSrc 0 4 = [97, 13, 10, 98] ∧
    List.intercalate [10] [[97], [98]] ≠ slice crSrc 0 4 := by
  decide

/-- C7 (amended): when the capture's source slice is non-empty, contains
no carriage return, does not end with a newline, and every one of its
lines is shorter than the line scanner's 65536-byte token limit, the
content block is exactly the source slice split on embedded newlines
(one output line per content line, rejoining with newlines gives back
the slice), followed by one blank line. -/
theorem c7_content_exact (q : QueryT) (source : List Nat) (cap : CaptureT)
    (hne : slice source cap.node.startByte cap.node.endByte ≠ [])
    (h13 : 13 ∉ slice source cap.node.startByte cap.node.endByte)
    (h10 : (slice source cap.node.startByte cap.node.endByte).getLast? ≠ some 10)
    (hshort : ∀ seg ∈ (slice source cap.node.startByte cap.node.endByte).splitOn 10,
      seg.length < 65536) :
    captureLines q source cap =
      captureHeader q cap
        ++ (slice source cap.node.startByte cap.node.endByte).splitOn 10 ++ [[]] ∧
    List.intercalate [10]
        ((slice source cap.node.startByte cap.node.endByte).splitOn 10)
      = slice source cap.node.startByte cap.node.endByte := by
  constructor
  · unfold captureLines
    rw [scanLines_eq_splitOn _ hne h13 h10 hshort]
  · exact List.intercalate_splitOn _ 10

/-- C7 witness: the amended content property holds for a capture
spanning `a\nb`. -/
theorem c7_witness :
    (slice wSrc7 0 3 ≠ [] ∧ 13 ∉ slice wSrc7 0 3 ∧
      (slice wSrc7 0 3).getLast? ≠ some 10 ∧
      ∀ seg ∈ (slice wSrc7 0 3).splitOn 10, seg.length < 65536) ∧
    captureLines crQ wSrc7 w7Cap =
      captureHeader crQ w7Cap ++ (slice wSrc7 0 3).splitOn 10 ++ [[]] := by
  refine ⟨by decide,
    (c7_content_exact crQ wSrc7 w7Cap (by decide) (by decide) (by decide) (by decide)).1⟩

/-- C8: every capture's position lines print the stored 0-based row plus
one and the stored 0-based column unchanged; and the spec's concrete
scenario — the query `(package_clause (package_identifier) @package)`
over `package main` — prints one capture `@package`, start `1:8`, end
`1:12`, content `main`. -/
theorem c8_positions :
    (∀ (q : QueryT) (cap : CaptureT),
      (captureHeader q cap)[1]? =
        some (ascii ("start: ") ++ natToBytes (cap.node.startRow + 1) ++ [58]
          ++ natToBytes cap.node.startCol) ∧
      (captureHeader q cap)[2]? =
        some (ascii ("end: ") ++ natToBytes (cap.node.endRow + 1) ++ [58]
          ++ natToBytes cap.node.endCol)) ∧
    executeQuery (Except.ok pkgQ) [pkgM] srcPM =
      ([ascii ("@package"), ascii ("start: 1:8"), ascii ("end: 1:12"),
        ascii ("content:"), ascii ("main"), []], none) := by
  constructor
  · intro q cap
    exact ⟨rfl, rfl⟩
  · decide

/-- C9: a named node with children renders as an opening line and a
closing line sharing the identical indentation of two spaces per depth
level, with every child's block rendered between them at depth + 1, the
children visited strictly in stored order with no reordering, filtering
or deduplication. -/
theorem c9_structure (source : List Nat) (node : Node) (depth : Nat)
    (hnamed : node.isNamed = true) (hchild : node.children ≠ []) :
    printTree source node depth =
      (List.replicate (2 * depth) 32 ++ [40] ++ node.kind)
        :: (node.children.flatMap (fun c => printTree source c (depth + 1))
          ++ [List.replicate (2 * depth) 32 ++ [41]]) := by
  cases node with
  | mk kind named sb eb r1 cl1 r2 cl2 children =>
    have hn : named = true := hnamed
    have hc : children ≠ [] := hchild
    cases children with
    | nil => exact absurd rfl hc
    | cons c cs =>
      simp [printTree, hn, printTreeList_eq_flatMap, Node.kind, Node.children]

/-- C9 witness: the block structure at a concrete named node with one
child, at depth 0. -/
theorem c9_witness :
    w9Node.isNamed = true ∧ w9Node.children ≠ [] ∧
    printTree wSrc w9Node 0 =
      (List.replicate 0 32 ++ [40] ++ w9Node.kind)
        :: (w9Node.children.flatMap (fun c => printTree wSrc c 1)
          ++ [List.replicate 0 32 ++ [41]]) := by
  refine ⟨by decide, by simp [w9Node, Node.children], ?_⟩
  have h := c9_structure wSrc w9Node 0 (by decide) (by simp [w9Node, Node.children])
  simpa using h

/-- C10: only newlines and tabs are escaped.  A leaf spanning `a"b`
renders as `(kind "a"b")` — the quote is emitted verbatim inside the
quoted form, which is therefore not unambiguously delimited; content
free of newlines and tabs passes through the escaping unchanged (so
backslashes and quotes are verbatim); and the escaping never adds or
removes a quote byte. -/
theorem c10_verbatim_quotes :
    printTree src10 quoteLeaf 0 = [ascii ("(kind \"a\"b\")")] ∧
    (∀ content : List Nat, (∀ b ∈ content, b ≠ 10 ∧ b ≠ 9) →
      escTab (escNL content) = content) ∧
    (∀ content : List Nat, (escTab (escNL content)).count 34 = content.count 34) := by
  refine ⟨by decide, ?_, ?_⟩
  · intro content h
    rw [escTab_escNL]
    induction content with
    | nil => rfl
    | cons b t ih =>
      have hb := h b (List.mem_cons_self b t)
      rw [List.flatMap_cons, ih (fun x hx => h x (List.mem_cons_of_mem b hx))]
      simp [escByte, hb.1, hb.2]
  · intro content
    rw [escTab_escNL]
    induction content with
    | nil => rfl
    | cons b t ih =>
      rw [List.flatMap_cons, List.count_append, ih, List.count_cons]
      unfold escByte
      by_cases h10 : b = 10
      · simp [h10]
      · by_cases h9 : b = 9
        · simp [h9]
        · simp [h10, h9, List.count_cons, Nat.add_comm]

/-- C10 witness: content `"` `\` `a` has no newline or tab and passes
through the escaping unchanged. -/
theorem c10_witness :
    (∀ b ∈ ([34, 92, 97] : List Nat), b ≠ 10 ∧ b ≠ 9) ∧
    escTab (escNL [34, 92, 97]) = [34, 92, 97] := by
  refine ⟨by decide, c10_verbatim_quotes.2.1 [34, 92, 97] (by decide)⟩

end TreeDebug
